import Mathlib

/-
  Verification development for the cloud-service-client HTTP retry and
  cookie-session core.

  The JavaScript sources are embedded shallowly:
  - JS objects with a known shape become Lean structures whose optional
    fields are Option values (a `none` field models an absent/undefined
    property); pass-through properties of unknown shape are kept in an
    `extra` association list of JsVal values.
  - JS numbers are modelled as Int (all quantities involved are integral),
    JS strings as String, JS arrays as List.
  - async functions are pure: every await in the sources resolves to a
    value computed without interleaving, so the promise structure is erased.
  - Mutation of the private state of HttpOptions instances becomes explicit
    state passing: a method that mutates returns the new state.
  - Retry strategy descriptors carry JS closures; in the embedding those
    closures receive a request config in which nested strategy closures are
    erased (JsOptions Unit), which breaks the type-level cycle and is
    unobservable to any code in the repository.
-/

namespace CSC

/-- A pass-through JS value kept in an options object: the shapes the
embedding needs to distinguish are strings, numbers, booleans and
function values. -/
inductive JsVal where
  | str (s : String)
  | num (n : Int)
  | boolVal (b : Bool)
  | fn
deriving DecidableEq, Repr

/-- Exact-key property read on a JS object modelled as an association list
with unique keys. -/
def jsGet {β : Type} (assoc : List (String × β)) (name : String) : Option β :=
  (assoc.find? (fun p => p.1 = name)).map (fun p => p.2)

/-- Spread-style property write: replaces the value of an existing key in
place, otherwise appends the new key, like a JS object spread followed by an
override. -/
def jsSet {β : Type} (assoc : List (String × β)) (name : String) (v : β) :
    List (String × β) :=
  if (assoc.find? (fun p => p.1 = name)).isSome then
    assoc.map (fun p => if p.1 = name then (name, v) else p)
  else
    assoc ++ [(name, v)]

/-- JS toLowerCase, implemented structurally over the character list so
that concrete instances reduce in the kernel. -/
def lowerStr (s : String) : String :=
  String.mk (s.data.map Char.toLower)

/-- Whitespace trim (as the external tough-cookie parser applies to cookie
keys and values), implemented structurally. -/
def trimStr (s : String) : String :=
  String.mk
    (((s.data.dropWhile Char.isWhitespace).reverse.dropWhile Char.isWhitespace).reverse)

/-- Worker for splitOnPair: scan the characters, cutting at every
occurrence of the two-character separator. -/
def splitOnPairGo (c1 c2 : Char) : List Char → List Char → List String
  | [], curr => [String.mk curr.reverse]
  | [c], curr => [String.mk (c :: curr).reverse]
  | a :: b :: rest, curr =>
    if a = c1 ∧ b = c2 then String.mk curr.reverse :: splitOnPairGo c1 c2 rest []
    else splitOnPairGo c1 c2 (b :: rest) (a :: curr)

/-- JS String.split with a two-character separator (the sources split only
on comma-space and semicolon-space): leftmost non-overlapping occurrences
separate the pieces, and an empty input yields one empty piece. Implemented
structurally so that concrete instances reduce in the kernel. -/
def splitOnPair (c1 c2 : Char) (s : String) : List String :=
  splitOnPairGo c1 c2 s.data []

/-- Case-insensitive header lookup: the first header whose lowercased name
equals the given lowercase name, as in the header-scanning loops of
http-options.js. -/
def ciGet {β : Type} (assoc : List (String × β)) (lowerName : String) : Option β :=
  (assoc.find? (fun p => lowerStr p.1 = lowerName)).map (fun p => p.2)

/-- JS truthy lookup for string-valued headers: an empty string property is
falsy and treated as missing. -/
def truthyGet (assoc : List (String × String)) (name : String) : Option String :=
  match jsGet assoc name with
  | some s => if s = "" then none else some s
  | none => none

/-- Numeric value of a list of decimal digit characters. -/
def digitsToNat (ds : List Char) : Nat :=
  ds.foldl (fun a c => a * 10 + (c.toNat - 48)) 0

/-- JS parseInt(s, 10): skip leading whitespace, optional sign, then the
longest prefix of decimal digits; none models a NaN result. (JS also skips
a few exotic Unicode spaces; the ASCII whitespace classes suffice for
header values.) -/
def jsParseInt (s : String) : Option Int :=
  let cs := s.data.dropWhile Char.isWhitespace
  let signAndDigits : Int × List Char :=
    match cs with
    | '-' :: rest => (-1, rest)
    | '+' :: rest => (1, rest)
    | _ => (1, cs)
  let ds := signAndDigits.2.takeWhile (fun c => c.isDigit)
  if ds.isEmpty then none else some (signAndDigits.1 * (digitsToNat ds : Int))

/-- Error information carried by a response (http-response.js). -/
structure JsError where
  name : Option String := none
  message : Option String := none
deriving DecidableEq, Repr

/-- Raw response of the underlying HTTP backend: the accessors used by the
core read status, statusText and headers. -/
structure RawResponse where
  status : Option Int := none
  statusText : Option String := none
  headers : Option (List (String × String)) := none
deriving DecidableEq, Repr

/-- HttpResponse (http-response.js): wraps a raw response and an optional
error; requestTime is set by the client. -/
structure HttpResponse where
  rawResponse : RawResponse := {}
  error : Option JsError := none
  requestTime : Option Int := none
deriving DecidableEq, Repr

/-- Output shape of HttpResponse.toJSON. -/
structure ResponseJson where
  headers : Option (List (String × String)) := none
  status : Option Int := none
  statusText : Option String := none
  requestTime : Option Int := none
  error : Option JsError := none
deriving DecidableEq, Repr

/-- redactHeaders (http-utils.js): replaces the values of authorization and
cookie headers, compared case-insensitively, with a marker. -/
def redactHeaders (headers : List (String × String)) : List (String × String) :=
  headers.map (fun p =>
    let testName := lowerStr p.1
    if testName = "authorization" then (p.1, "<redacted>")
    else if testName = "cookie" then (p.1, "<redacted>")
    else p)

/-- True when a JS error object is truthy with a truthy name or message. -/
def errHasInfo (e : JsError) : Bool :=
  e.name.getD "" ≠ "" ∨ e.message.getD "" ≠ ""

/-- HttpResponse.toJSON (http-response.js): headers are redacted, falsy
status and statusText are omitted, requestTime is kept when defined, and a
present error is reduced to its name and message when either is truthy. -/
def httpResponseToJSON (r : HttpResponse) : ResponseJson :=
  { headers := r.rawResponse.headers.map redactHeaders
    status := match r.rawResponse.status with
      | some v => if v ≠ 0 then some v else none
      | none => none
    statusText := match r.rawResponse.statusText with
      | some s => if s ≠ "" then some s else none
      | none => none
    requestTime := r.requestTime
    error := r.error.map (fun e =>
      if errHasInfo e then
        { name := if e.name.getD "" ≠ "" then e.name else none
          message := if e.message.getD "" ≠ "" then e.message else none }
      else e) }

/-- Retry sub-record of the client options (typedefs RetryOptions block);
the element type of the strategies list is a parameter so that the
strategy-visible view can erase the closures. -/
structure RetryConf (α : Type) where
  count : Option Int := none
  delay : Option Int := none
  delayMultiple : Option Int := none
  strategies : Option (List α) := none
deriving DecidableEq, Repr

/-- Client-specific options stored under the cloudClient property. -/
structure CloudClient (α : Type) where
  retries : Option Nat := none
  retryWait : Option Int := none
  retryResponses : Option (List ResponseJson) := none
  retry : Option (RetryConf α) := none
  timeout : Option Int := none
  startTime : Option Int := none
  endTime : Option Int := none
  eventuallyConsistentCreate : Option Bool := none
  eventuallyConsistentUpdate : Option Bool := none
  eventuallyConsistentDelete : Option Bool := none
  extra : List (String × JsVal) := []
deriving DecidableEq, Repr

/-- Raw request options as passed to the client (url, method, headers, the
cloudClient block, plus pass-through properties). -/
structure JsOptions (α : Type) where
  url : Option String := none
  method : Option String := none
  headers : Option (List (String × String)) := none
  cloudClient : Option (CloudClient α) := none
  extra : List (String × JsVal) := []
deriving DecidableEq, Repr

/-- Attempt context handed to every retry strategy (the retryOptions object
built inside retryWithStrategies). The options field is the request config
with strategy closures erased. -/
structure RetryCtx where
  url : Option String := none
  options : JsOptions Unit := {}
  response : RawResponse := {}
  attempts : Nat := 0
  maxAttempts : Int := 0
  delayMultiple : Int := 0
  delay : Int := 0

/-- User-supplied strategy descriptor (StrategyOptions in
retry-strategy.js): an arbitrary subset of the five functions. -/
structure StrategyOptions where
  shouldRetry : Option (RetryCtx → Bool) := none
  getDelay : Option (RetryCtx → Int) := none
  getDelayMultiple : Option (RetryCtx → Int) := none
  getMaxRetries : Option (RetryCtx → Int) := none
  getRequestOptions : Option (RetryCtx → JsOptions Unit) := none

/-- Identifies which strategy class an element of the chain is. -/
inductive RetryStrategyKind where
  | errorStatusCode
  | networkError
  | custom
  | ecCreate
  | ecUpdate
  | ecDelete
deriving DecidableEq, Repr

/-- A resolved retry strategy: the methods of the RetryStrategy class after
default resolution, tagged with the class it came from. -/
structure RetryStrategy where
  kind : RetryStrategyKind
  shouldRetry : RetryCtx → Bool
  getRetryDelayMultiple : RetryCtx → Int
  getRetryDelay : RetryCtx → Int
  getMaxRetryCount : RetryCtx → Int
  getRetryRequestOptions : RetryCtx → JsOptions Unit

/-- new RetryStrategy(strategyOptions): each method falls back to the
ambient attempt-context value (or false / empty object) when the descriptor
does not provide the corresponding function (retry-strategy.js). -/
def mkRetryStrategy (strategyOptions : StrategyOptions) : RetryStrategy where
  kind := .custom
  shouldRetry := fun ro =>
    match strategyOptions.shouldRetry with
    | some f => f ro
    | none => false
  getRetryDelayMultiple := fun ro =>
    match strategyOptions.getDelayMultiple with
    | some f => f ro
    | none => ro.delayMultiple
  getRetryDelay := fun ro =>
    match strategyOptions.getDelay with
    | some f => f ro
    | none => ro.delay
  getMaxRetryCount := fun ro =>
    match strategyOptions.getMaxRetries with
    | some f => f ro
    | none => ro.maxAttempts
  getRetryRequestOptions := fun ro =>
    match strategyOptions.getRequestOptions with
    | some f => f ro
    | none => {}

/-- A built-in strategy subclass: RetryStrategy constructed with no
descriptor, with shouldRetry overridden. -/
def builtinStrategy (kind : RetryStrategyKind) (sr : RetryCtx → Bool) : RetryStrategy :=
  { mkRetryStrategy {} with kind := kind, shouldRetry := sr }

/-- Modelled from the spec: the source file
retry-strategies/error-status-code.js is not under src/ (only its unit test
is). Spec: retries when response.status is at least 500; the repo test pins
status 200 and a missing status to false and 500 to true. -/
def errorStatusCodeStrategy : RetryStrategy :=
  builtinStrategy .errorStatusCode (fun ro =>
    match ro.response.status with
    | some status => decide (500 ≤ status)
    | none => false)

/-- NetworkError (retry-strategies/network-error.js): retries exactly when
the response carries no status field. -/
def networkErrorStrategy : RetryStrategy :=
  builtinStrategy .networkError (fun ro => ro.response.status.isNone)

/-- Modelled from the spec: the source file
retry-strategies/eventually-consistent-create.js is not under src/ (only
its unit test is). Spec: retries while status == 404. -/
def eventuallyConsistentCreateStrategy : RetryStrategy :=
  builtinStrategy .ecCreate (fun ro => ro.response.status = some 404)

/-- Modelled from the spec: the source file
retry-strategies/eventually-consistent-update.js is not under src/. Spec:
retries while status == 200 but the response etag does not match the
request If-Match header (the spec flags the exact matching rule as an open
question; headers are compared case-insensitively here). -/
def eventuallyConsistentUpdateStrategy : RetryStrategy :=
  builtinStrategy .ecUpdate (fun ro =>
    ro.response.status = some 200 ∧
      ciGet (ro.response.headers.getD []) "etag" ≠
        ciGet (ro.options.headers.getD []) "if-match")

/-- Modelled from the spec: the source file
retry-strategies/eventually-consistent-delete.js is not under src/ (only
its unit test is). Spec: retries while status != 404; the repo test pins a
missing status to false. -/
def eventuallyConsistentDeleteStrategy : RetryStrategy :=
  builtinStrategy .ecDelete (fun ro =>
    match ro.response.status with
    | some status => status ≠ 404
    | none => false)

/-- A cookie as parsed by the external tough-cookie library: the core only
reads the key and value properties. All cookies handled by the modelled
flows are set for the URL of the request, so domain and path attributes are
constant and omitted. -/
structure Cookie where
  key : String
  value : String
deriving DecidableEq, Repr

/-- tough-cookie Cookie.parse in strict mode: the cookie-pair is the part
before the first semicolon (what follows are attributes such as Path or
Expires, which the modelled flows never read since every cookie lives on
the request URL); within the pair, the key is everything before the first
equals sign and the value everything after, both trimmed. Parsing fails
(undefined) when the pair has no equals sign or an empty key. External
library, modelled for the cookie-pair inputs the core feeds it. -/
def jsCookieParse (s : String) : Option Cookie :=
  let pairChars := s.data.takeWhile (fun c => c ≠ ';')
  let keyChars := pairChars.takeWhile (fun c => c ≠ '=')
  let rest := pairChars.dropWhile (fun c => c ≠ '=')
  match rest with
  | [] => none
  | _ :: valueChars =>
    let key := trimStr (String.mk keyChars)
    let value := trimStr (String.mk valueChars)
    if key = "" then none else some { key := key, value := value }

/-- parseCookieHeader (http-utils.js): split the raw Cookie header on the
cookie-pair separator and parse each pair; a pair that fails to parse maps
to none, like the undefined entries Cookie.parse produces. -/
def parseCookieHeader (headerValue : String) : List (Option Cookie) :=
  (splitOnPair ';' ' ' headerValue).map jsCookieParse

/-- buildCookieLookup (http-utils.js): object keyed by cookie key; a later
cookie with the same key overwrites the earlier entry. -/
def buildCookieLookup (cookieList : List Cookie) : List (String × Cookie) :=
  cookieList.foldl (fun lookup cookie => jsSet lookup cookie.key cookie) []

/-- CookieJar.setCookie for cookies of one fixed URL: a cookie replaces an
existing cookie with the same key in place (RFC 6265 preserves the creation
time of the replaced cookie, keeping its position), otherwise it is
appended. External tough-cookie behaviour. -/
def jarSetCookie (jar : List Cookie) (cookie : Cookie) : List Cookie :=
  if (jar.find? (fun c => c.key = cookie.key)).isSome then
    jar.map (fun c => if c.key = cookie.key then cookie else c)
  else
    jar ++ [cookie]

/-- CookieJar.getCookieString for one URL: the cookie-pair strings joined
with the cookie-pair separator, in jar order. External tough-cookie
behaviour. -/
def getCookieString (jar : List Cookie) : String :=
  String.intercalate "; " (jar.map (fun c => c.key ++ "=" ++ c.value))

/-- The private state of an HttpOptions instance: the raw options, the
memoized request id, cookies added from the client jar, and the memoized
per-options cookie jar. The strategy closures live inside options. -/
structure HttpOptionsState where
  options : JsOptions StrategyOptions := {}
  requestId : Option String := none
  addlCookies : List Cookie := []
  optionsJar : Option (List Cookie) := none

/-- HttpOptions.getOptions. -/
def getOptions (s : HttpOptionsState) : JsOptions StrategyOptions :=
  s.options

/-- HttpOptions.getClientOptions: the cloudClient block, defaulting to an
empty object. -/
def getClientOptions (s : HttpOptionsState) : CloudClient StrategyOptions :=
  (getOptions s).cloudClient.getD {}

/-- HttpOptions private _getRetryOptions: the retry block of the client
options, defaulting to an empty object. -/
def getRetryOptions (s : HttpOptionsState) : RetryConf StrategyOptions :=
  (getClientOptions s).retry.getD {}

/-- HttpOptions.getUrl. -/
def getUrl (s : HttpOptionsState) : Option String :=
  (getOptions s).url

/-- HttpOptions.getRetries, default 0. -/
def getRetries (s : HttpOptionsState) : Nat :=
  (getClientOptions s).retries.getD 0

/-- HttpOptions.getRetryWait, default 0. -/
def getRetryWait (s : HttpOptionsState) : Int :=
  (getClientOptions s).retryWait.getD 0

/-- HttpOptions.getRetryResponses, default empty. -/
def getRetryResponses (s : HttpOptionsState) : List ResponseJson :=
  (getClientOptions s).retryResponses.getD []

/-- HttpOptions.getRetryDelay, default 1000. -/
def getRetryDelay (s : HttpOptionsState) : Int :=
  (getRetryOptions s).delay.getD 1000

/-- HttpOptions.getRetryDelayMultiple, default 2. -/
def getRetryDelayMultiple (s : HttpOptionsState) : Int :=
  (getRetryOptions s).delayMultiple.getD 2

/-- HttpOptions.getMaxRetries: the retry count option, default 3. -/
def getMaxRetries (s : HttpOptionsState) : Int :=
  (getRetryOptions s).count.getD 3

/-- HttpOptions.getRetryStrategies (http-options.js): the two error
built-ins, then one wrapped RetryStrategy per user-supplied descriptor in
order, then each eventually-consistent built-in that is enabled by its
flag. -/
def getRetryStrategies (s : HttpOptionsState) : List RetryStrategy :=
  let cc := getClientOptions s
  let strategies := (getRetryOptions s).strategies.getD []
  ([errorStatusCodeStrategy, networkErrorStrategy] ++
      strategies.map mkRetryStrategy) ++
    (if cc.eventuallyConsistentCreate.getD false then
      [eventuallyConsistentCreateStrategy] else []) ++
    (if cc.eventuallyConsistentUpdate.getD false then
      [eventuallyConsistentUpdateStrategy] else []) ++
    (if cc.eventuallyConsistentDelete.getD false then
      [eventuallyConsistentDeleteStrategy] else [])

/-- The cookie loop of getCookieJar: sets each parsed cookie into the jar
in order; the first entry Cookie.parse rejected makes the source throw a
TypeError (it reads the key property of undefined before setCookie), which
the embedding models as none. -/
def setAllCookies : List (Option Cookie) → List Cookie → Option (List Cookie)
  | [], jar => some jar
  | some cookie :: rest, jar => setAllCookies rest (jarSetCookie jar cookie)
  | none :: _, _ => none

/-- HttpOptions.getCookieJar: on first use, find the Cookie header by
case-insensitive name, parse it, and seed the options jar with the parsed
cookies; a cookie-pair Cookie.parse rejects makes the loop throw (none),
and the jar is then never memoized. Memoized in the state on success. -/
def getCookieJar (s : HttpOptionsState) :
    Option (List Cookie × HttpOptionsState) :=
  match s.optionsJar with
  | some jar => some (jar, s)
  | none =>
    let headers := (getOptions s).headers.getD []
    let cookieHeader := (ciGet headers "cookie").getD ""
    let cookieList := if cookieHeader ≠ "" then parseCookieHeader cookieHeader else []
    match setAllCookies cookieList [] with
    | some jar => some (jar, { s with optionsJar := some jar })
    | none => none

/-- HttpOptions.setAdditionalCookies. -/
def setAdditionalCookies (s : HttpOptionsState) (cookies : List Cookie) :
    HttpOptionsState :=
  { s with addlCookies := cookies }

/-- HttpOptions.toRequestConfig (http-options.js): when additional cookies
from the client jar are pending, merge them into the options jar unless a
cookie of the same key is already there, then overwrite the cookie header
with the jar contents. Clears the pending cookies and memoizes the enlarged
jar. A throwing getCookieJar rejects the whole call (none); with no pending
cookies the jar is never consulted and the call always succeeds. -/
def toRequestConfig (s : HttpOptionsState) :
    Option (JsOptions StrategyOptions × HttpOptionsState) :=
  let options := getOptions s
  if s.addlCookies.isEmpty then some (options, s)
  else
    let cookies := s.addlCookies
    match getCookieJar s with
    | none => none
    | some jarAndState =>
      let cookieLookup := buildCookieLookup jarAndState.1
      let jar := cookies.foldl
        (fun jar cookie =>
          if (jsGet cookieLookup cookie.key).isSome then jar
          else jarSetCookie jar cookie)
        jarAndState.1
      let cookie := getCookieString jar
      let options :=
        if cookie ≠ "" then
          { options with headers := some (jsSet (options.headers.getD []) "cookie" cookie) }
        else options
      some (options, { jarAndState.2 with addlCookies := [], optionsJar := some jar })

/-- Strategy-visible view of a request config: nested strategy closures are
erased (see the header comment). -/
def eraseStrategies (o : JsOptions StrategyOptions) : JsOptions Unit :=
  { url := o.url
    method := o.method
    headers := o.headers
    cloudClient := o.cloudClient.map (fun cc =>
      { retries := cc.retries
        retryWait := cc.retryWait
        retryResponses := cc.retryResponses
        retry := cc.retry.map (fun r =>
          { count := r.count
            delay := r.delay
            delayMultiple := r.delayMultiple
            strategies := r.strategies.map (fun l => l.map (fun _ => ())) })
        timeout := cc.timeout
        startTime := cc.startTime
        endTime := cc.endTime
        eventuallyConsistentCreate := cc.eventuallyConsistentCreate
        eventuallyConsistentUpdate := cc.eventuallyConsistentUpdate
        eventuallyConsistentDelete := cc.eventuallyConsistentDelete
        extra := cc.extra })
    extra := o.extra }

/-- getRetryAfter (http-client-utils.js): 0 when the response has no
headers object; otherwise the first truthy value among the exact header
names retry-after and Retry-After is run through parseInt and scaled to
milliseconds. A none result models the NaN a non-numeric value produces. -/
def getRetryAfter (response : HttpResponse) : Option Int :=
  match response.rawResponse.headers with
  | none => some 0
  | some headers =>
    match truthyGet headers "retry-after" with
    | some v => (jsParseInt v).map (fun n => n * 1000)
    | none =>
      match truthyGet headers "Retry-After" with
      | some v => (jsParseInt v).map (fun n => n * 1000)
      | none => some 0

/-- The retryOptions object built inside the strategy loop of
retryWithStrategies; the source rebuilds an identical object on every
iteration, so it is hoisted here. A truthy Retry-After value overrides the
ambient delay and forces the multiple to 1. -/
def buildRetryCtx (s : HttpOptionsState) (response : HttpResponse)
    (attempts : Nat) : RetryCtx :=
  -- a throwing config computation would reject retryWithStrategies in the
  -- source; the client invokes it only on freshly created options with no
  -- pending cookies, where toRequestConfig always succeeds, and no theorem
  -- inspects the fallback (strategies receive the config opaquely)
  let options := eraseStrategies (((toRequestConfig s).map (fun p => p.1)).getD (getOptions s))
  let defaultDelay := getRetryDelay s
  let defaultMultiple := getRetryDelayMultiple s
  let retryAfter := getRetryAfter response
  let resolved : Int × Int :=
    match retryAfter with
    | some n => if n ≠ 0 then (n, 1) else (defaultDelay, defaultMultiple)
    | none => (defaultDelay, defaultMultiple)
  { url := getUrl s
    options := options
    response := response.rawResponse
    attempts := attempts
    maxAttempts := getMaxRetries s
    delayMultiple := resolved.2
    delay := resolved.1 }

/-- Decision returned by retryWithStrategies when a retry is warranted. -/
structure RetryDecision where
  delay : Int
  options : JsOptions Unit
deriving DecidableEq

/-- The strategy loop of retryWithStrategies: the first strategy whose
shouldRetry is truthy determines the outcome; its max-retry count gates the
decision, and the delay grows exponentially with the attempt number. The
embedding covers attempts at least 1, as the client always calls with
getRetries() + 1. -/
def evalStrategies (attempts : Nat) (ro : RetryCtx) :
    List RetryStrategy → Option RetryDecision
  | [] => none
  | strategy :: rest =>
    if strategy.shouldRetry ro then
      let delayMultiple := strategy.getRetryDelayMultiple ro
      let maxRetries := strategy.getMaxRetryCount ro
      let delay := strategy.getRetryDelay ro
      let requestOptions := strategy.getRetryRequestOptions ro
      if (attempts : Int) ≥ maxRetries ∧ 0 ≤ maxRetries then none
      else some { delay := delay * delayMultiple ^ (attempts - 1)
                  options := requestOptions }
    else evalStrategies attempts ro rest

/-- retryWithStrategies (http-client-utils.js): false (none) when no
strategy wants a retry or the max-retry gate fires, otherwise the delay and
the request options of the winning strategy. -/
def retryWithStrategies (s : HttpOptionsState) (response : HttpResponse)
    (attempts : Nat) : Option RetryDecision :=
  evalStrategies attempts (buildRetryCtx s response attempts) (getRetryStrategies s)

/-- HttpOptions.addRetry (http-options.js): push the response JSON onto the
retry responses, bump the retry count and accumulate the delay into the
retry wait. -/
def addRetry (s : HttpOptionsState) (response : HttpResponse)
    (retryDelay : Int) : HttpOptionsState :=
  let cc := getClientOptions s
  let retries := cc.retries.getD 0
  let retryWait := cc.retryWait.getD 0
  let retryResponses := cc.retryResponses.getD []
  let newClientOptions :=
    { cc with
      retries := some (retries + 1)
      retryWait := some (retryWait + retryDelay)
      retryResponses := some (retryResponses ++ [httpResponseToJSON response]) }
  { s with options := { s.options with cloudClient := some newClientOptions } }

/-- HttpOptions.getRequestId (http-options.js): the exact-case
x-request-id header when truthy, else a generated id (the uuid call is the
gen parameter); the result is cached in the private state. A cached falsy
value would be recomputed, matching the truthiness test in the source. -/
def getRequestId (s : HttpOptionsState) (gen : String) :
    String × HttpOptionsState :=
  if s.requestId.getD "" = "" then
    let headers := (getOptions s).headers.getD []
    let rid :=
      match jsGet headers "x-request-id" with
      | some v => if v ≠ "" then v else gen
      | none => gen
    (rid, { s with requestId := some rid })
  else (s.requestId.getD "", s)

/-- objectToJson (http-utils.js) applied to the options shape built by
HttpOptions.toJSON: undefined properties are already absent, none of the
known properties is a function or carries a toJSON method, so its only
effect is to drop function-valued pass-through properties. -/
def objectToJson (o : JsOptions StrategyOptions) : JsOptions StrategyOptions :=
  { o with extra := o.extra.filter (fun p => p.2 ≠ JsVal.fn) }

/-- HttpOptions.toJSON (http-options.js): a copy of the options in which
the headers gain the request id, the cloudClient block is completed with
the resolved retries, retryWait and retryResponses, and the strategies
property is deleted from the retry object. The delete acts on the retry
object shared with the live options, so the state is updated as well; the
request id memoization also updates the state. -/
def toJSON (s : HttpOptionsState) (gen : String) :
    JsOptions StrategyOptions × HttpOptionsState :=
  let ridAndState := getRequestId s gen
  let s1 := ridAndState.2
  let jsonOptions := getOptions s1
  let headers := jsonOptions.headers.getD []
  let jsonOptions :=
    { jsonOptions with headers := some (jsSet headers "x-request-id" ridAndState.1) }
  let cc := getClientOptions s1
  let cloudClient :=
    { cc with
      retries := some (getRetries s1)
      retryWait := some (getRetryWait s1)
      retryResponses := some (getRetryResponses s1)
      retry := cc.retry.map (fun r => { r with strategies := none }) }
  let jsonOptions := { jsonOptions with cloudClient := some cloudClient }
  let s2 :=
    { s1 with options :=
        { s1.options with cloudClient := s1.options.cloudClient.map (fun cc =>
            { cc with retry := cc.retry.map (fun r => { r with strategies := none }) }) } }
  (objectToJson jsonOptions, s2)

/-- The test of the regex in parseMultipleFetchSetCookieHeaders: the
segment starts with one or more non-space characters immediately followed
by an equals sign, i.e. its first character is not a space and an equals
sign occurs before any space in the remainder. -/
def cookieSegStart (s : String) : Bool :=
  match s.data with
  | [] => false
  | c :: rest => c ≠ ' ' && (rest.takeWhile (fun d => d ≠ ' ')).contains '='

/-- Body of the forEach loop in parseMultipleFetchSetCookieHeaders: the
accumulated header values plus the value currently being assembled. -/
def setCookieFoldStep (st : List String × String) (splitValue : String) :
    List String × String :=
  if splitValue ≠ "" then
    if ¬ cookieSegStart splitValue then
      (st.1, st.2 ++ ", " ++ splitValue)
    else if st.2 ≠ "" then
      (st.1 ++ [st.2], splitValue)
    else
      (st.1, splitValue)
  else st

/-- parseMultipleFetchSetCookieHeaders (http-utils.js): split the folded
header on comma-space; a segment matching the cookie-start pattern begins a
new value, any other non-empty segment is glued back onto the current value
with the separator restored; empty segments are skipped by the truthiness
test. -/
def parseMultipleFetchSetCookieHeaders (headerValue : String) : List String :=
  let splitValues := splitOnPair ',' ' ' headerValue
  let folded := splitValues.foldl setCookieFoldStep ([], "")
  if folded.2 ≠ "" then folded.1 ++ [folded.2] else folded.1

/-! Theorems. -/

/-- The strategy loop returns the gated decision of the first strategy
whose shouldRetry is truthy, and none when no strategy matches. -/
theorem evalStrategies_eq_find (attempts : Nat) (ro : RetryCtx)
    (l : List RetryStrategy) :
    evalStrategies attempts ro l =
      match l.find? (fun st => st.shouldRetry ro) with
      | none => none
      | some w =>
        if (attempts : Int) ≥ w.getMaxRetryCount ro ∧ 0 ≤ w.getMaxRetryCount ro then
          none
        else
          some { delay := w.getRetryDelay ro * w.getRetryDelayMultiple ro ^ (attempts - 1)
                 options := w.getRetryRequestOptions ro } := by
  induction l with
  | nil => rfl
  | cons st rest ih =>
    cases h : st.shouldRetry ro with
    | true => simp [evalStrategies, List.find?, h]
    | false => simp [evalStrategies, List.find?, h, ih]

/-- C1: for every evaluation in which some strategy signals retry and
attempts is at least 1, the delay returned by retryWithStrategies equals
baseDelay times baseMultiple to the power attempts minus 1, where baseDelay
and baseMultiple are the winning (first matching) strategy's getRetryDelay
and getRetryDelayMultiple results on the attempt context; the final two
conjuncts record that a wrapped custom strategy defaults those results to
the ambient delay and delayMultiple of the attempt context when the
descriptor does not override them. -/
theorem c1_retry_delay_formula (s : HttpOptionsState) (response : HttpResponse)
    (attempts : Nat) (w : RetryStrategy) (dec : RetryDecision)
    (hatt : 1 ≤ attempts)
    (hw : (getRetryStrategies s).find?
        (fun st => st.shouldRetry (buildRetryCtx s response attempts)) = some w)
    (hres : retryWithStrategies s response attempts = some dec) :
    (dec.delay =
        w.getRetryDelay (buildRetryCtx s response attempts) *
          w.getRetryDelayMultiple (buildRetryCtx s response attempts) ^ (attempts - 1)) ∧
      (∀ (so : StrategyOptions) (ro : RetryCtx), so.getDelay = none →
        (mkRetryStrategy so).getRetryDelay ro = ro.delay) ∧
      (∀ (so : StrategyOptions) (ro : RetryCtx), so.getDelayMultiple = none →
        (mkRetryStrategy so).getRetryDelayMultiple ro = ro.delayMultiple) := by
  refine ⟨?_, ?_, ?_⟩
  · rw [retryWithStrategies, evalStrategies_eq_find, hw] at hres
    by_cases hgate :
        (attempts : Int) ≥ w.getMaxRetryCount (buildRetryCtx s response attempts) ∧
          0 ≤ w.getMaxRetryCount (buildRetryCtx s response attempts)
    · simp [hgate] at hres
    · simp only [hgate, if_false] at hres
      cases hres
      rfl
  · intro so ro h
    simp [mkRetryStrategy, h]
  · intro so ro h
    simp [mkRetryStrategy, h]

/-- Custom strategy descriptor used by the C1 witness: always retry with an
overridden delay of 7 and multiple of 3. -/
def c1so : StrategyOptions :=
  { shouldRetry := some (fun _ => true), getDelay := some (fun _ => 7),
    getDelayMultiple := some (fun _ => 3) }

/-- An HttpOptions state whose client options carry a single custom retry
strategy descriptor; used by concrete instances below. -/
def stateWithStrategy (so : StrategyOptions) : HttpOptionsState :=
  { options := { cloudClient := some { retry := some { strategies := some [so] } } } }

/-- A response with HTTP status 200 and no headers. -/
def status200 : HttpResponse := { rawResponse := { status := some 200 } }

/-- C1 witness: a custom strategy overriding delay to 7 and multiple to 3
at attempts = 2 yields the decision delay 21 = 7 times 3. -/
theorem c1_retry_delay_formula_witness :
    (1 ≤ 2) ∧
      ((getRetryStrategies (stateWithStrategy c1so)).find?
          (fun st => st.shouldRetry
            (buildRetryCtx (stateWithStrategy c1so) status200 2)) =
        some (mkRetryStrategy c1so)) ∧
      (retryWithStrategies (stateWithStrategy c1so) status200 2 =
        some { delay := 21, options := {} }) ∧
      (({ delay := 21, options := {} } : RetryDecision).delay =
        (mkRetryStrategy c1so).getRetryDelay
            (buildRetryCtx (stateWithStrategy c1so) status200 2) *
          (mkRetryStrategy c1so).getRetryDelayMultiple
            (buildRetryCtx (stateWithStrategy c1so) status200 2) ^ (2 - 1)) :=
  ⟨by decide, rfl, by decide,
    (c1_retry_delay_formula (stateWithStrategy c1so) status200 2
      (mkRetryStrategy c1so) { delay := 21, options := {} }
      (by decide) rfl (by decide)).1⟩

/-- C2 counterexample: with a custom strategy that signals retry and
resolves getMaxRetryCount to -2, at attempts = 1 the claim says the gate
fires (1 is at least -2 and -2 is not -1, so the decision should be do not
retry), but the code retries: the source gate also requires the resolved
maxRetries to be non-negative. -/
theorem c2_counterexample :
    retryWithStrategies
        (stateWithStrategy { shouldRetry := some (fun _ => true),
                             getMaxRetries := some (fun _ => -2) })
        status200 1 =
      some { delay := 1000, options := {} } ∧
      ((1 : Int) ≥ -2 ∧ (-2 : Int) ≠ -1) :=
  ⟨rfl, by decide⟩

/-- C2 amended: whenever a strategy signals retry, retryWithStrategies
resolves the winning strategy's getMaxRetryCount to maxRetries and returns
the decision do-not-retry if and only if attempts is at least maxRetries
and maxRetries is non-negative; in particular every negative maxRetries,
including the -1 sentinel, never triggers the gate. -/
theorem c2_max_retry_gate (s : HttpOptionsState) (response : HttpResponse)
    (attempts : Nat) (w : RetryStrategy)
    (hw : (getRetryStrategies s).find?
        (fun st => st.shouldRetry (buildRetryCtx s response attempts)) = some w) :
    (retryWithStrategies s response attempts = none ↔
      ((attempts : Int) ≥ w.getMaxRetryCount (buildRetryCtx s response attempts) ∧
        0 ≤ w.getMaxRetryCount (buildRetryCtx s response attempts))) ∧
      (w.getMaxRetryCount (buildRetryCtx s response attempts) = -1 →
        retryWithStrategies s response attempts ≠ none) := by
  rw [retryWithStrategies, evalStrategies_eq_find, hw]
  constructor
  · by_cases hgate :
        (attempts : Int) ≥ w.getMaxRetryCount (buildRetryCtx s response attempts) ∧
          0 ≤ w.getMaxRetryCount (buildRetryCtx s response attempts)
    · simp [hgate]
    · simp [hgate]
  · intro hneg
    have : ¬ ((attempts : Int) ≥ w.getMaxRetryCount (buildRetryCtx s response attempts) ∧
        0 ≤ w.getMaxRetryCount (buildRetryCtx s response attempts)) := by
      rw [hneg]
      omega
    simp [this]

/-- Custom strategy descriptor used by the C2 witness: always retry, cap at
one retry (matches the max-retries test in the repo). -/
def c2so : StrategyOptions :=
  { shouldRetry := some (fun _ => true), getMaxRetries := some (fun _ => 1) }

/-- C2 witness: the max-retry gate instantiated with a custom strategy
resolving getMaxRetries to 1 at attempts = 2, where the gate fires. -/
theorem c2_max_retry_gate_witness :
    ((getRetryStrategies (stateWithStrategy c2so)).find?
        (fun st => st.shouldRetry
          (buildRetryCtx (stateWithStrategy c2so) status200 2)) =
      some (mkRetryStrategy c2so)) ∧
      (retryWithStrategies (stateWithStrategy c2so) status200 2 = none ↔
        ((2 : Int) ≥ (mkRetryStrategy c2so).getMaxRetryCount
            (buildRetryCtx (stateWithStrategy c2so) status200 2) ∧
          (0 : Int) ≤ (mkRetryStrategy c2so).getMaxRetryCount
            (buildRetryCtx (stateWithStrategy c2so) status200 2))) :=
  ⟨rfl, (c2_max_retry_gate (stateWithStrategy c2so) status200 2
    (mkRetryStrategy c2so) rfl).1⟩

/-- C4: the strategy chain consists of the built-in ErrorStatusCode and
NetworkError strategies, then the user-supplied custom strategies in the
order provided, then each eventually-consistent built-in exactly when its
option is enabled; and for every attempt retryWithStrategies returns the
decision derived from the first strategy whose shouldRetry resolves truthy,
never consulting later strategies. -/
theorem c4_strategy_chain_order :
    (∀ s : HttpOptionsState,
      (getRetryStrategies s).map (fun st => st.kind) =
        [RetryStrategyKind.errorStatusCode, RetryStrategyKind.networkError] ++
          ((getRetryOptions s).strategies.getD []).map
            (fun _ => RetryStrategyKind.custom) ++
          (if (getClientOptions s).eventuallyConsistentCreate.getD false then
            [RetryStrategyKind.ecCreate] else []) ++
          (if (getClientOptions s).eventuallyConsistentUpdate.getD false then
            [RetryStrategyKind.ecUpdate] else []) ++
          (if (getClientOptions s).eventuallyConsistentDelete.getD false then
            [RetryStrategyKind.ecDelete] else [])) ∧
      (∀ s : HttpOptionsState,
        ((getRetryStrategies s).drop 2).take
            ((getRetryOptions s).strategies.getD []).length =
          ((getRetryOptions s).strategies.getD []).map mkRetryStrategy) ∧
      (∀ (s : HttpOptionsState) (response : HttpResponse) (attempts : Nat),
        retryWithStrategies s response attempts =
          match (getRetryStrategies s).find?
              (fun st => st.shouldRetry (buildRetryCtx s response attempts)) with
          | none => none
          | some w =>
            if (attempts : Int) ≥ w.getMaxRetryCount (buildRetryCtx s response attempts) ∧
                0 ≤ w.getMaxRetryCount (buildRetryCtx s response attempts) then
              none
            else
              some { delay := w.getRetryDelay (buildRetryCtx s response attempts) *
                       w.getRetryDelayMultiple (buildRetryCtx s response attempts) ^
                         (attempts - 1)
                     options := w.getRetryRequestOptions
                       (buildRetryCtx s response attempts) }) := by
  refine ⟨?_, ?_, ?_⟩
  · intro s
    simp [getRetryStrategies, errorStatusCodeStrategy, networkErrorStrategy,
      eventuallyConsistentCreateStrategy, eventuallyConsistentUpdateStrategy,
      eventuallyConsistentDeleteStrategy, builtinStrategy, mkRetryStrategy,
      apply_ite (List.map (fun (st : RetryStrategy) => st.kind)), Function.comp]
    rw [show ((fun (st : RetryStrategy) => st.kind) ∘ mkRetryStrategy) =
        (fun _ => RetryStrategyKind.custom) from rfl, List.map_const']
  · intro s
    simp only [getRetryStrategies, List.append_assoc, List.cons_append,
      List.nil_append, List.drop_succ_cons, List.drop_zero]
    rw [show ((getRetryOptions s).strategies.getD []).length =
        (((getRetryOptions s).strategies.getD []).map mkRetryStrategy).length from
      (List.length_map _ _).symm]
    exact List.take_left _ _
  · intro s response attempts
    rw [retryWithStrategies]
    exact evalStrategies_eq_find attempts (buildRetryCtx s response attempts)
      (getRetryStrategies s)

/-- getRetryAfter on a response whose headers resolve a truthy retry-after
value that parseInt accepts. -/
theorem getRetryAfter_resolves (response : HttpResponse)
    (hs : List (String × String)) (v : String) (secs : Int)
    (hh : response.rawResponse.headers = some hs)
    (hv : truthyGet hs "retry-after" = some v ∨
      (truthyGet hs "retry-after" = none ∧ truthyGet hs "Retry-After" = some v))
    (hp : jsParseInt v = some secs) :
    getRetryAfter response = some (secs * 1000) := by
  rcases hv with h | ⟨h1, h2⟩
  · simp [getRetryAfter, hh, h, hp]
  · simp [getRetryAfter, hh, h1, h2, hp]

/-- A response carrying the headers of the C3 counterexample, first input:
an upper-case RETRY-AFTER spelling. -/
def respRetryAfterUpper : HttpResponse :=
  { rawResponse := { status := some 503, headers := some [("RETRY-AFTER", "5")] } }

/-- A response carrying the headers of the C3 counterexample, second input:
a Retry-After of zero seconds. -/
def respRetryAfterZero : HttpResponse :=
  { rawResponse := { status := some 503, headers := some [("retry-after", "0")] } }

/-- C3 counterexample: a RETRY-AFTER header (a case-insensitive match for
retry-after with numeric value 5) does not override the ambient defaults:
the attempt context keeps delay 1000 and multiple 2 instead of the claimed
5000 and 1, because the source only consults the exact spellings
retry-after and Retry-After; and a Retry-After of 0 seconds also leaves the
ambient delay at 1000 instead of replacing it with 0 times 1000, because a
zero value is falsy. -/
theorem c3_counterexample :
    ((buildRetryCtx {} respRetryAfterUpper 1).delay = 1000 ∧
      (buildRetryCtx {} respRetryAfterUpper 1).delayMultiple = 2 ∧
      ((1000 : Int) ≠ 5 * 1000 ∧ (2 : Int) ≠ 1)) ∧
      ((buildRetryCtx {} respRetryAfterZero 1).delay = 1000 ∧
        (1000 : Int) ≠ 0 * 1000) := by
  decide

/-- C3 amended: for every response whose headers carry a header spelled
exactly retry-after or Retry-After (in that lookup order, skipping falsy
values) with positive numeric value S seconds, the attempt context handed
to every strategy carries delay S times 1000 and delayMultiple 1, replacing
the ambient defaults; responses without such a header, as well as responses
whose resolved value parses to 0 (a falsy override), leave both configured
ambient defaults unchanged. -/
theorem c3_retry_after_override :
    (∀ (s : HttpOptionsState) (response : HttpResponse) (attempts : Nat)
      (hs : List (String × String)) (v : String) (secs : Int),
      response.rawResponse.headers = some hs →
      (truthyGet hs "retry-after" = some v ∨
        (truthyGet hs "retry-after" = none ∧ truthyGet hs "Retry-After" = some v)) →
      jsParseInt v = some secs → 0 < secs →
      (buildRetryCtx s response attempts).delay = secs * 1000 ∧
        (buildRetryCtx s response attempts).delayMultiple = 1) ∧
      (∀ (s : HttpOptionsState) (response : HttpResponse) (attempts : Nat),
        (response.rawResponse.headers = none ∨
          ∃ hs, response.rawResponse.headers = some hs ∧
            truthyGet hs "retry-after" = none ∧ truthyGet hs "Retry-After" = none) →
        (buildRetryCtx s response attempts).delay = getRetryDelay s ∧
          (buildRetryCtx s response attempts).delayMultiple = getRetryDelayMultiple s) ∧
      (∀ (s : HttpOptionsState) (response : HttpResponse) (attempts : Nat)
        (hs : List (String × String)) (v : String),
        response.rawResponse.headers = some hs →
        (truthyGet hs "retry-after" = some v ∨
          (truthyGet hs "retry-after" = none ∧ truthyGet hs "Retry-After" = some v)) →
        jsParseInt v = some 0 →
        (buildRetryCtx s response attempts).delay = getRetryDelay s ∧
          (buildRetryCtx s response attempts).delayMultiple = getRetryDelayMultiple s) := by
  refine ⟨?_, ?_, ?_⟩
  · intro s response attempts hs v secs hh hv hp hpos
    have hra : getRetryAfter response = some (secs * 1000) :=
      getRetryAfter_resolves response hs v secs hh hv hp
    have hne : secs * 1000 ≠ 0 := by positivity
    constructor <;> simp [buildRetryCtx, hra, hne]
  · intro s response attempts hcases
    have hra : getRetryAfter response = some 0 := by
      rcases hcases with h | ⟨hs, hh, h1, h2⟩
      · simp [getRetryAfter, h]
      · simp [getRetryAfter, hh, h1, h2]
    constructor <;> simp [buildRetryCtx, hra]
  · intro s response attempts hs v hh hv hp
    have hra : getRetryAfter response = some 0 := by
      simpa using getRetryAfter_resolves response hs v 0 hh hv hp
    constructor <;> simp [buildRetryCtx, hra]

/-- A response with a Retry-After of 5 seconds under the exact lower-case
spelling, used by the C3 witness. -/
def respRetryAfterFive : HttpResponse :=
  { rawResponse := { status := some 503, headers := some [("retry-after", "5")] } }

/-- C3 witness: with the ambient defaults delay 1000 and delayMultiple 2, a
retry-after of 5 yields an attempt context with delay 5000 and multiple 1,
while a retry-after of 0 leaves delay 1000 and multiple 2. -/
theorem c3_retry_after_override_witness :
    (getRetryDelay {} = 1000 ∧ getRetryDelayMultiple {} = 2) ∧
      (respRetryAfterFive.rawResponse.headers = some [("retry-after", "5")] ∧
        truthyGet [("retry-after", "5")] "retry-after" = some "5" ∧
        jsParseInt "5" = some 5 ∧ (0 : Int) < 5) ∧
      ((buildRetryCtx {} respRetryAfterFive 1).delay = 5 * 1000 ∧
        (buildRetryCtx {} respRetryAfterFive 1).delayMultiple = 1) ∧
      (jsParseInt "0" = some 0 ∧
        (buildRetryCtx {} respRetryAfterZero 1).delay = getRetryDelay {} ∧
        (buildRetryCtx {} respRetryAfterZero 1).delayMultiple =
          getRetryDelayMultiple {}) :=
  ⟨⟨rfl, rfl⟩, ⟨rfl, rfl, rfl, by decide⟩,
    c3_retry_after_override.1 {} respRetryAfterFive 1 [("retry-after", "5")] "5" 5
      rfl (Or.inl rfl) rfl (by decide),
    rfl,
    c3_retry_after_override.2.2 {} respRetryAfterZero 1 [("retry-after", "0")] "0"
      rfl (Or.inl rfl) rfl⟩

/-- The reassembly procedure described by the spec for folded Set-Cookie
values: a segment matching the token-equals pattern starts a new output
value (flushing the value under assembly, if any); any other segment is
reattached to the value under assembly with the separator restored. -/
def reassembleSetCookieSegments : String → List String → List String
  | currValue, [] => if currValue ≠ "" then [currValue] else []
  | currValue, seg :: rest =>
    if cookieSegStart seg then
      if currValue ≠ "" then currValue :: reassembleSetCookieSegments seg rest
      else reassembleSetCookieSegments seg rest
    else
      reassembleSetCookieSegments (currValue ++ ", " ++ seg) rest

/-- The multi-value Set-Cookie split as the claim words it: split on
comma-space and reassemble every segment, including empty ones. -/
def setCookieSplitClaim (headerValue : String) : List String :=
  reassembleSetCookieSegments "" (splitOnPair ',' ' ' headerValue)

/-- The multi-value Set-Cookie split as amended: split on comma-space, drop
empty segments, and reassemble the rest. -/
def setCookieSplitSpec (headerValue : String) : List String :=
  reassembleSetCookieSegments ""
    ((splitOnPair ',' ' ' headerValue).filter (fun seg => seg ≠ ""))

/-- The fold of parseMultipleFetchSetCookieHeaders computes the spec
reassembly of the non-empty segments, relative to any starting state. -/
theorem foldStep_eq_reassemble (l : List String) (acc : List String) (curr : String) :
    (if (l.foldl setCookieFoldStep (acc, curr)).2 ≠ "" then
        (l.foldl setCookieFoldStep (acc, curr)).1 ++
          [(l.foldl setCookieFoldStep (acc, curr)).2]
      else (l.foldl setCookieFoldStep (acc, curr)).1) =
      acc ++ reassembleSetCookieSegments curr (l.filter (fun seg => seg ≠ "")) := by
  induction l generalizing acc curr with
  | nil =>
    by_cases h : curr = "" <;>
      simp [reassembleSetCookieSegments, h]
  | cons seg rest ih =>
    rw [List.foldl_cons]
    by_cases h0 : seg = ""
    · have hstep : setCookieFoldStep (acc, curr) seg = (acc, curr) := by
        simp [setCookieFoldStep, h0]
      have hfil : (seg :: rest).filter (fun seg => seg ≠ "") =
          rest.filter (fun seg => seg ≠ "") := by
        simp [List.filter_cons, h0]
      rw [hstep, hfil]
      exact ih acc curr
    · have hfil : (seg :: rest).filter (fun seg => seg ≠ "") =
          seg :: rest.filter (fun seg => seg ≠ "") := by
        simp [List.filter_cons, h0]
      rw [hfil]
      by_cases h1 : cookieSegStart seg
      · by_cases h2 : curr = ""
        · have hstep : setCookieFoldStep (acc, curr) seg = (acc, seg) := by
            simp [setCookieFoldStep, h0, h1, h2]
          have hre : reassembleSetCookieSegments curr
              (seg :: rest.filter (fun seg => seg ≠ "")) =
              reassembleSetCookieSegments seg (rest.filter (fun seg => seg ≠ "")) := by
            simp [reassembleSetCookieSegments, h1, h2]
          rw [hstep, hre]
          exact ih acc seg
        · have hstep : setCookieFoldStep (acc, curr) seg = (acc ++ [curr], seg) := by
            simp [setCookieFoldStep, h0, h1, h2]
          have hre : reassembleSetCookieSegments curr
              (seg :: rest.filter (fun seg => seg ≠ "")) =
              curr :: reassembleSetCookieSegments seg (rest.filter (fun seg => seg ≠ "")) := by
            simp [reassembleSetCookieSegments, h1, h2]
          rw [hstep, hre, ih (acc ++ [curr]) seg]
          simp [List.append_assoc]
      · have hstep : setCookieFoldStep (acc, curr) seg = (acc, curr ++ ", " ++ seg) := by
          simp [setCookieFoldStep, h0, h1]
        have hre : reassembleSetCookieSegments curr
            (seg :: rest.filter (fun seg => seg ≠ "")) =
            reassembleSetCookieSegments (curr ++ ", " ++ seg)
              (rest.filter (fun seg => seg ≠ "")) := by
          simp [reassembleSetCookieSegments, h1]
        rw [hstep, hre]
        exact ih acc (curr ++ ", " ++ seg)

/-- C6 counterexample: the claim reattaches every non-matching segment with
the separator restored, which for the input below (an empty segment between
two cookies) would yield a first value ending in the restored separator;
the source skips falsy (empty) segments entirely, so the separator is
dropped. -/
theorem c6_counterexample :
    parseMultipleFetchSetCookieHeaders "cookie=value, , cookie2=value2" =
        ["cookie=value", "cookie2=value2"] ∧
      setCookieSplitClaim "cookie=value, , cookie2=value2" =
        ["cookie=value, ", "cookie2=value2"] ∧
      (["cookie=value", "cookie2=value2"] : List String) ≠
        ["cookie=value, ", "cookie2=value2"] := by
  refine ⟨by decide, by decide, by decide⟩

/-- C6 amended: parseMultipleFetchSetCookieHeaders splits the folded header
on comma-space, drops empty segments, starts a new output value at each
remaining segment that begins with a non-space token immediately followed
by an equals sign, and reattaches every remaining non-matching segment
(with the separator restored) to the end of the value under assembly; in
particular the folded Expires example splits into exactly two values. -/
theorem c6_set_cookie_reassembly :
    (∀ headerValue : String,
      parseMultipleFetchSetCookieHeaders headerValue =
        setCookieSplitSpec headerValue) ∧
      parseMultipleFetchSetCookieHeaders
          "cookie=value; Expires=Wed, 12345, cookie2=value2" =
        ["cookie=value; Expires=Wed, 12345", "cookie2=value2"] := by
  constructor
  · intro headerValue
    have := foldStep_eq_reassemble (splitOnPair ',' ' ' headerValue) [] ""
    simpa [parseMultipleFetchSetCookieHeaders, setCookieSplitSpec] using this
  · decide

/-- addRetry increments the retry count by exactly one. -/
theorem getRetries_addRetry (s : HttpOptionsState) (r : HttpResponse) (d : Int) :
    getRetries (addRetry s r d) = getRetries s + 1 := by
  simp [addRetry, getRetries, getClientOptions, getOptions]

/-- addRetry appends exactly the JSON of the given response. -/
theorem getRetryResponses_addRetry (s : HttpOptionsState) (r : HttpResponse)
    (d : Int) :
    getRetryResponses (addRetry s r d) =
      getRetryResponses s ++ [httpResponseToJSON r] := by
  simp [addRetry, getRetryResponses, getClientOptions, getOptions]

/-- addRetry adds exactly the given delay to the retry wait. -/
theorem getRetryWait_addRetry (s : HttpOptionsState) (r : HttpResponse) (d : Int) :
    getRetryWait (addRetry s r d) = getRetryWait s + d := by
  simp [addRetry, getRetryWait, getClientOptions, getOptions]

/-- Folding addRetry over any batch preserves the count-length invariant. -/
theorem foldl_addRetry_inv (l : List (HttpResponse × Int)) (s : HttpOptionsState)
    (h : getRetries s = (getRetryResponses s).length) :
    getRetries (l.foldl (fun s p => addRetry s p.1 p.2) s) =
      (getRetryResponses (l.foldl (fun s p => addRetry s p.1 p.2) s)).length := by
  induction l generalizing s with
  | nil => exact h
  | cons p rest ih =>
    rw [List.foldl_cons]
    refine ih _ ?_
    rw [getRetries_addRetry, getRetryResponses_addRetry, List.length_append, h]
    rfl

/-- The client options of the repo test for addRetry: one retry and 200 ms
of wait already recorded, but no retryResponses entry. -/
def c7cc : CloudClient StrategyOptions :=
  { retries := some 1, retryWait := some 200,
    retry := some { count := some 2, delay := some 10 }, timeout := some 3000 }

/-- The HttpOptions state of the repo test for addRetry. -/
def c7state : HttpOptionsState := { options := { cloudClient := some c7cc } }

/-- C7 counterexample: the claim asserts retries equals the length of
retryResponses after the call for every starting state; starting from the
state of the repo addRetry test (retries 1, no recorded responses), one
call yields retries 2 but a single recorded response. -/
theorem c7_counterexample :
    getRetries (addRetry c7state status200 150) = 2 ∧
      (getRetryResponses (addRetry c7state status200 150)).length = 1 ∧
      (2 : Nat) ≠ 1 := by
  refine ⟨by decide, by decide, by decide⟩

/-- C7 amended: every addRetry call increments retries by exactly one,
appends the response JSON to retryResponses and adds the delay to
retryWait; consequently it preserves the invariant that retries equals the
length of retryResponses, so the invariant holds after every sequence of
addRetry calls starting from the initial state (retries 0, no responses)
-- though not from an arbitrary state where it did not already hold. -/
theorem c7_add_retry_accounting :
    (∀ (s : HttpOptionsState) (r : HttpResponse) (d : Int),
      getRetries (addRetry s r d) = getRetries s + 1) ∧
      (∀ (s : HttpOptionsState) (r : HttpResponse) (d : Int),
        getRetryResponses (addRetry s r d) =
          getRetryResponses s ++ [httpResponseToJSON r]) ∧
      (∀ (s : HttpOptionsState) (r : HttpResponse) (d : Int),
        getRetryWait (addRetry s r d) = getRetryWait s + d) ∧
      (∀ (s : HttpOptionsState) (r : HttpResponse) (d : Int),
        getRetries s = (getRetryResponses s).length →
          getRetries (addRetry s r d) = (getRetryResponses (addRetry s r d)).length) ∧
      (∀ l : List (HttpResponse × Int),
        getRetries (l.foldl (fun s p => addRetry s p.1 p.2) ({} : HttpOptionsState)) =
          (getRetryResponses
            (l.foldl (fun s p => addRetry s p.1 p.2) ({} : HttpOptionsState))).length) := by
  refine ⟨getRetries_addRetry, getRetryResponses_addRetry, getRetryWait_addRetry,
    ?_, ?_⟩
  · intro s r d h
    rw [getRetries_addRetry, getRetryResponses_addRetry, List.length_append, h]
    rfl
  · intro l
    exact foldl_addRetry_inv l {} rfl

/-- C7 witness: the invariant-preservation conjunct applied at the initial
state, where both sides are zero before the call and one after. -/
theorem c7_add_retry_accounting_witness :
    (getRetries ({} : HttpOptionsState) =
        (getRetryResponses ({} : HttpOptionsState)).length) ∧
      getRetries (addRetry {} status200 150) =
        (getRetryResponses (addRetry {} status200 150)).length :=
  ⟨rfl, c7_add_retry_accounting.2.2.2.1 {} status200 150 rfl⟩

/-- The request id memoization does not touch the raw options. -/
theorem getRequestId_options (s : HttpOptionsState) (gen : String) :
    (getRequestId s gen).2.options = s.options := by
  by_cases h : s.requestId.getD "" = "" <;> simp [getRequestId, h]

/-- A state whose client options carry an Authorization header. -/
def c8state : HttpOptionsState :=
  { options := { headers := some [("Authorization", "secret-token")] } }

/-- C8 counterexample: toJSON keeps the Authorization header value intact
instead of redacting it (redaction happens only in HttpResponse.toJSON, not
in HttpOptions.toJSON). -/
theorem c8_counterexample :
    jsGet ((toJSON c8state "generated-id").1.headers.getD []) "Authorization" =
        some "secret-token" ∧
      ("secret-token" : String) ≠ "<redacted>" := by
  refine ⟨by decide, by decide⟩

/-- C8 amended: toJSON produces a snapshot that omits the function-valued
pass-through properties of the options, omits the retry strategy list
entirely, and carries the request headers with their values intact (no
Authorization or Cookie redaction), extended with the x-request-id entry. -/
theorem c8_to_json_snapshot :
    ∀ (s : HttpOptionsState) (gen : String),
      ((toJSON s gen).1.extra =
          s.options.extra.filter (fun p => p.2 ≠ JsVal.fn)) ∧
        ((((toJSON s gen).1.cloudClient.getD {}).retry.getD {}).strategies = none) ∧
        ((toJSON s gen).1.headers =
          some (jsSet (s.options.headers.getD []) "x-request-id"
            (getRequestId s gen).1)) := by
  intro s gen
  have hopt := getRequestId_options s gen
  refine ⟨?_, ?_, ?_⟩
  · simp [toJSON, objectToJson, getOptions, hopt]
  · simp only [toJSON, objectToJson, getClientOptions, getOptions, hopt]
    cases hcc : s.options.cloudClient with
    | none => simp
    | some cc =>
      cases hr : cc.retry with
      | none => simp [hr]
      | some r => simp [hr]
  · have hopt := getRequestId_options s gen
    simp [toJSON, objectToJson, getOptions, hopt]

/-- A state receiving an X-Request-Id header whose name is not the exact
lower-case spelling. -/
def c9state : HttpOptionsState :=
  { options := { headers := some [("X-Request-Id", "abc")] } }

/-- C9 counterexample: the claim says the inbound x-request-id header is
looked up case-insensitively, so the X-Request-Id value abc should be
returned; the source reads the exact-case property only and generates an id
instead. -/
theorem c9_counterexample :
    (getRequestId c9state "generated-id").1 = "generated-id" ∧
      ("generated-id" : String) ≠ "abc" := by
  refine ⟨by decide, by decide⟩

/-- C9 amended: getRequestId returns the value of the inbound header
spelled exactly x-request-id when a non-empty one is supplied, and
otherwise the generated id; in either case the result is memoized, so every
subsequent call returns the same value and leaves the state fixed (the
generated id is never empty in the source, reflected by the hypothesis on
gen). -/
theorem c9_request_id :
    (∀ (s : HttpOptionsState) (gen v : String),
      s.requestId.getD "" = "" →
      jsGet ((getOptions s).headers.getD []) "x-request-id" = some v →
      v ≠ "" →
      (getRequestId s gen).1 = v) ∧
      (∀ (s : HttpOptionsState) (gen : String),
        s.requestId.getD "" = "" →
        (jsGet ((getOptions s).headers.getD []) "x-request-id" = none ∨
          jsGet ((getOptions s).headers.getD []) "x-request-id" = some "") →
        (getRequestId s gen).1 = gen) ∧
      (∀ (s : HttpOptionsState) (gen gen2 : String),
        gen ≠ "" →
        getRequestId (getRequestId s gen).2 gen2 =
          ((getRequestId s gen).1, (getRequestId s gen).2)) := by
  refine ⟨?_, ?_, ?_⟩
  · intro s gen v hc hv hne
    simp [getRequestId, hc, hv, hne]
  · intro s gen hc hv
    rcases hv with h | h <;> simp [getRequestId, hc, h]
  · intro s gen gen2 hgen
    by_cases hc : s.requestId.getD "" = ""
    · have hout : (getRequestId s gen).1 ≠ "" := by
        simp only [getRequestId, hc, if_true]
        cases hv : jsGet ((getOptions s).headers.getD []) "x-request-id" with
        | none => exact hgen
        | some v =>
          by_cases hv0 : v = "" <;> simp [hv0, hgen]
      have hstate : (getRequestId s gen).2.requestId = some (getRequestId s gen).1 := by
        simp [getRequestId, hc]
      rw [getRequestId, hstate]
      simp [Option.getD, hout]
    · have h1 : getRequestId s gen = (s.requestId.getD "", s) := by
        simp [getRequestId, hc]
      rw [h1]
      simp [getRequestId, hc]

/-- A state receiving the exact-case x-request-id header. -/
def c9wstate : HttpOptionsState :=
  { options := { headers := some [("x-request-id", "abc")] } }

/-- C9 witness: the exact-case header value abc is returned ahead of the
generated id. -/
theorem c9_request_id_witness :
    (c9wstate.requestId.getD "" = "") ∧
      (jsGet ((getOptions c9wstate).headers.getD []) "x-request-id" = some "abc") ∧
      (("abc" : String) ≠ "") ∧
      ((getRequestId c9wstate "gen-1").1 = "abc") :=
  ⟨rfl, rfl, by decide, c9_request_id.1 c9wstate "gen-1" "abc" rfl rfl (by decide)⟩

/-- The state mutation the strategies delete in toJSON performs on the live
options: the strategies property disappears from the retry object and
nothing else changes. -/
def deleteStrategies (o : JsOptions StrategyOptions) : JsOptions StrategyOptions :=
  { o with cloudClient := o.cloudClient.map (fun cc =>
      { cc with retry := cc.retry.map (fun r => { r with strategies := none }) }) }

/-- C10: toJSON deletes the strategies property from the live retry object
shared with the underlying options -- leaving every other field of the live
options unchanged, as the deleteStrategies equality states -- so every
subsequent getRetryStrategies call returns only the two error built-ins and
the enabled eventually-consistent opt-ins, without the user-supplied custom
strategies. -/
theorem c10_to_json_strategies_delete :
    ∀ (s : HttpOptionsState) (gen : String),
      ((toJSON s gen).2.options = deleteStrategies s.options) ∧
        ((getRetryOptions (toJSON s gen).2).strategies = none) ∧
        (getRetryStrategies (toJSON s gen).2 =
          [errorStatusCodeStrategy, networkErrorStrategy] ++
            (if (getClientOptions s).eventuallyConsistentCreate.getD false then
              [eventuallyConsistentCreateStrategy] else []) ++
            (if (getClientOptions s).eventuallyConsistentUpdate.getD false then
              [eventuallyConsistentUpdateStrategy] else []) ++
            (if (getClientOptions s).eventuallyConsistentDelete.getD false then
              [eventuallyConsistentDeleteStrategy] else [])) := by
  intro s gen
  have hopt := getRequestId_options s gen
  have hdel : (toJSON s gen).2.options = deleteStrategies s.options := by
    simp [toJSON, deleteStrategies, hopt]
  have hstrats : (getRetryOptions (toJSON s gen).2).strategies = none := by
    rw [getRetryOptions, getClientOptions, getOptions, hdel, deleteStrategies]
    cases hcc : s.options.cloudClient with
    | none => simp
    | some cc =>
      cases hr : cc.retry with
      | none => simp [hr]
      | some r => simp [hr]
  refine ⟨hdel, hstrats, ?_⟩
  have hflags : getClientOptions (toJSON s gen).2 =
      { getClientOptions s with retry :=
          (getClientOptions s).retry.map (fun r => { r with strategies := none }) } := by
    rw [getClientOptions, getOptions, hdel, deleteStrategies, getClientOptions, getOptions]
    cases hcc : s.options.cloudClient with
    | none => simp
    | some cc => simp
  rw [getRetryStrategies, hstrats, hflags]
  simp

/-- Writing a key with jsSet and reading it back yields the new value:
worker for the in-place replacement branch. -/
theorem jsGet_map_replace_self {β : Type} (l : List (String × β)) (n : String)
    (v : β) (h : (l.find? (fun p => p.1 = n)).isSome) :
    jsGet (l.map (fun p => if p.1 = n then (n, v) else p)) n = some v := by
  induction l with
  | nil => simp [List.find?] at h
  | cons hd tl ih =>
    by_cases hh : hd.1 = n
    · simp [jsGet, List.find?_cons, hh]
    · have h2 : (tl.find? (fun p => p.1 = n)).isSome := by
        simpa [List.find?_cons, hh] using h
      simpa [jsGet, List.find?_cons, hh] using ih h2

/-- The in-place replacement of one key leaves lookups of other keys
unchanged. -/
theorem find?_map_replace_ne {β : Type} (l : List (String × β)) (n : String)
    (v : β) (k : String) (hk : k ≠ n) :
    (l.map (fun p => if p.1 = n then (n, v) else p)).find? (fun p => p.1 = k) =
      l.find? (fun p => p.1 = k) := by
  induction l with
  | nil => rfl
  | cons hd tl ih =>
    by_cases hh : hd.1 = n
    · have h1 : ¬ (n = k) := fun he => hk he.symm
      have h2 : ¬ (hd.1 = k) := by rw [hh]; exact h1
      simp [List.find?_cons, hh, h1, h2, ih]
    · by_cases h3 : hd.1 = k
      · simp [List.find?_cons, hh, h3, hk]
      · simp [List.find?_cons, hh, h3, ih]

/-- jsSet followed by jsGet of the same key yields the written value. -/
theorem jsGet_jsSet_self {β : Type} (l : List (String × β)) (n : String) (v : β) :
    jsGet (jsSet l n v) n = some v := by
  rw [jsSet]
  by_cases h : (l.find? (fun p => p.1 = n)).isSome
  · rw [if_pos h]
    exact jsGet_map_replace_self l n v h
  · rw [if_neg h]
    have h0 : l.find? (fun p => p.1 = n) = none := by
      cases hf : l.find? (fun p => p.1 = n) with
      | none => rfl
      | some x => rw [hf] at h; simp at h
    simp [jsGet, List.find?_append, h0, List.find?_cons]

/-- jsSet leaves jsGet of every other key unchanged. -/
theorem jsGet_jsSet_ne {β : Type} (l : List (String × β)) (n : String) (v : β)
    (k : String) (hk : k ≠ n) :
    jsGet (jsSet l n v) k = jsGet l k := by
  rw [jsSet]
  by_cases h : (l.find? (fun p => p.1 = n)).isSome
  · rw [if_pos h, jsGet, find?_map_replace_ne l n v k hk]
    rfl
  · rw [if_neg h]
    have h1 : ¬ (n = k) := fun he => hk he.symm
    simp [jsGet, List.find?_append, List.find?_cons, h1]

/-- Worker for the cookie lookup membership rule, generalized over the
fold accumulator. -/
theorem jsGet_buildCookieLookup_aux (jar : List Cookie)
    (acc : List (String × Cookie)) (k : String) :
    (jsGet (jar.foldl (fun lookup cookie => jsSet lookup cookie.key cookie) acc)
        k).isSome ↔
      ((jsGet acc k).isSome ∨ k ∈ jar.map Cookie.key) := by
  induction jar generalizing acc with
  | nil => simp
  | cons c rest ih =>
    rw [List.foldl_cons, ih]
    by_cases hk : k = c.key
    · subst hk
      simp [jsGet_jsSet_self]
    · simp [jsGet_jsSet_ne _ _ _ _ hk, hk]

/-- A key resolves in the lookup built by buildCookieLookup exactly when
some cookie in the list carries that key. -/
theorem jsGet_buildCookieLookup (jar : List Cookie) (k : String) :
    (jsGet (buildCookieLookup jar) k).isSome ↔ k ∈ jar.map Cookie.key := by
  simpa [buildCookieLookup, jsGet] using jsGet_buildCookieLookup_aux jar [] k

/-- Setting a cookie whose key is absent from the jar appends it. -/
theorem jarSetCookie_notMem (jar : List Cookie) (c : Cookie)
    (h : c.key ∉ jar.map Cookie.key) : jarSetCookie jar c = jar ++ [c] := by
  rw [jarSetCookie, if_neg]
  intro hs
  rw [List.find?_isSome] at hs
  obtain ⟨x, hx, hpx⟩ := hs
  exact h (List.mem_map.mpr ⟨x, hx, by simpa using hpx⟩)

/-- The guarded jar fold of toRequestConfig appends exactly the cookies the
guard lets through, as long as their keys are distinct and absent from the
jar. -/
theorem foldl_jarSet_filter (p : Cookie → Bool) (A : List Cookie) :
    ∀ jar : List Cookie, (A.map Cookie.key).Nodup →
      (∀ c ∈ A, p c = false → c.key ∉ jar.map Cookie.key) →
      A.foldl (fun jar cookie => if p cookie then jar else jarSetCookie jar cookie)
          jar =
        jar ++ A.filter (fun c => !p c) := by
  induction A with
  | nil =>
    intro jar _ _
    simp
  | cons c rest ih =>
    intro jar hn hsub
    have hn2 : (rest.map Cookie.key).Nodup := by
      rw [List.map_cons, List.nodup_cons] at hn
      exact hn.2
    have hkeyNotRest : c.key ∉ rest.map Cookie.key := by
      rw [List.map_cons, List.nodup_cons] at hn
      exact hn.1
    rw [List.foldl_cons]
    cases hp : p c with
    | true =>
      rw [if_pos (by simp [hp])]
      rw [ih jar hn2 (fun c2 hc2 hpc2 => hsub c2 (List.mem_cons_of_mem c hc2) hpc2)]
      simp [List.filter_cons, hp]
    | false =>
      have hkey : c.key ∉ jar.map Cookie.key := hsub c (List.mem_cons_self c rest) hp
      rw [if_neg (by simp [hp]), jarSetCookie_notMem jar c hkey]
      rw [ih (jar ++ [c]) hn2 ?hsub2]
      · simp [List.filter_cons, hp, List.append_assoc]
      case hsub2 =>
        intro c2 hc2 hpc2
        rw [List.map_append, List.mem_append]
        rintro (hmem | hmem)
        · exact hsub c2 (List.mem_cons_of_mem c hc2) hpc2 hmem
        · have : c2.key = c.key := by simpa using hmem
          exact hkeyNotRest (this ▸ List.mem_map.mpr ⟨c2, hc2, rfl⟩)

/-- When a list contains a cookie with a given key, the keyed find in that
list succeeds, so an appended suffix is never consulted. -/
theorem find?_append_of_mem (own rest : List Cookie) (c : Cookie) (hc : c ∈ own) :
    (own ++ rest).find? (fun x => x.key = c.key) =
      own.find? (fun x => x.key = c.key) := by
  have hsome : (own.find? (fun x => x.key = c.key)).isSome := by
    rw [List.find?_isSome]
    exact ⟨c, hc, by simp⟩
  cases hf : own.find? (fun x => x.key = c.key) with
  | none => rw [hf] at hsome; simp at hsome
  | some x => rw [List.find?_append, hf]; rfl

/-- The keyed find in a filtered list recovers the unique cookie with that
key when the keys are distinct. -/
theorem find?_filter_key (A : List Cookie) (q : Cookie → Bool) (c : Cookie)
    (hn : (A.map Cookie.key).Nodup) (hc : c ∈ A) (hq : q c = true) :
    (A.filter q).find? (fun x => x.key = c.key) = some c := by
  induction A with
  | nil => cases hc
  | cons a rest ih =>
    rw [List.map_cons, List.nodup_cons] at hn
    rcases List.mem_cons.mp hc with rfl | hc2
    · rw [List.filter_cons, if_pos (by simp [hq])]
      simp [List.find?_cons]
    · have hne : ¬ (a.key = c.key) := by
        intro he
        exact hn.1 (he ▸ List.mem_map.mpr ⟨c, hc2, rfl⟩)
      rw [List.filter_cons]
      cases hqa : q a with
      | true =>
        rw [if_pos (by simp [hqa]), List.find?_cons]
        simpa [hne] using ih hn.2 hc2
      | false =>
        rw [if_neg (by simp [hqa])]
        exact ih hn.2 hc2

/-- The jar contents after toRequestConfig merges the pending client-jar
cookies into an options jar: the cookies parsed from the request header,
followed by exactly the pending cookies whose key resolves nowhere in that
jar. -/
def mergedJar (own addl : List Cookie) : List Cookie :=
  own ++ addl.filter (fun c => !(jsGet (buildCookieLookup own) c.key).isSome)

/-- C5: for every request with pending client-jar cookies whose Cookie
header parses (getCookieJar succeeds with the jar own), building the
outgoing request config adds a client-jar cookie to the merged jar (and so
to the outgoing Cookie header string) if and only if no cookie of the same
key was parsed from the request Cookie header; keyed lookups for header
cookies are unchanged by the merge (explicit request cookies win), and a
jar cookie whose key is absent from the header cookies is found in the
merged jar. When the Cookie header does not parse, the config computation
throws (none) instead of producing a config. -/
theorem c5_cookie_merge (s : HttpOptionsState) (own : List Cookie)
    (s1 : HttpOptionsState)
    (hne : ¬ s.addlCookies.isEmpty)
    (hnodup : (s.addlCookies.map Cookie.key).Nodup)
    (hjar : getCookieJar s = some (own, s1)) :
    ((toRequestConfig s).map (fun p => p.2.optionsJar) =
        some (some (mergedJar own s.addlCookies))) ∧
      ((toRequestConfig s).map (fun p => p.1.headers) =
        some (if getCookieString (mergedJar own s.addlCookies) ≠ "" then
          some (jsSet ((getOptions s).headers.getD []) "cookie"
            (getCookieString (mergedJar own s.addlCookies)))
        else (getOptions s).headers)) ∧
      (∀ k : String,
        (jsGet (buildCookieLookup own) k).isSome ↔ k ∈ own.map Cookie.key) ∧
      (∀ c ∈ own,
        (mergedJar own s.addlCookies).find? (fun x => x.key = c.key) =
          own.find? (fun x => x.key = c.key)) ∧
      (∀ c ∈ s.addlCookies, c.key ∉ own.map Cookie.key →
        (mergedJar own s.addlCookies).find? (fun x => x.key = c.key) = some c) ∧
      (∀ s2 : HttpOptionsState, ¬ s2.addlCookies.isEmpty →
        getCookieJar s2 = none → toRequestConfig s2 = none) := by
  have hsub : ∀ c ∈ s.addlCookies,
      (jsGet (buildCookieLookup own) c.key).isSome = false →
        c.key ∉ own.map Cookie.key := by
    intro c hc hfalse hmem
    rw [← jsGet_buildCookieLookup own c.key] at hmem
    rw [hfalse] at hmem
    exact absurd hmem (by simp)
  have hfold := foldl_jarSet_filter
    (fun c => (jsGet (buildCookieLookup own) c.key).isSome)
    s.addlCookies own hnodup hsub
  refine ⟨?_, ?_, fun k => jsGet_buildCookieLookup _ k, ?_, ?_, ?_⟩
  · unfold toRequestConfig
    rw [if_neg hne, hjar]
    simp only [mergedJar, ← hfold]
    rfl
  · unfold toRequestConfig
    rw [if_neg hne, hjar]
    simp only [mergedJar, ← hfold]
    by_cases hstr : getCookieString
        (s.addlCookies.foldl
          (fun jar cookie =>
            if (jsGet (buildCookieLookup own) cookie.key).isSome then jar
            else jarSetCookie jar cookie)
          own) = ""
    · simp [hstr]
    · simp [hstr]
  · intro c hc
    exact find?_append_of_mem own _ c hc
  · intro c hc hmem
    have hpred : (jsGet (buildCookieLookup own) c.key).isSome = false := by
      cases hp : (jsGet (buildCookieLookup own) c.key).isSome with
      | false => rfl
      | true =>
        exact absurd ((jsGet_buildCookieLookup own c.key).mp hp) hmem
    have hleft : own.find? (fun x => x.key = c.key) = none := by
      rw [List.find?_eq_none]
      intro x hx hpx
      exact hmem (List.mem_map.mpr ⟨x, hx, by simpa using hpx⟩)
    have hright := find?_filter_key s.addlCookies
      (fun c => !(jsGet (buildCookieLookup own) c.key).isSome) c
      hnodup hc (by simp [hpred])
    rw [mergedJar, List.find?_append, hleft, hright]
    rfl
  · intro s2 h1 h2
    unfold toRequestConfig
    rw [if_neg h1, h2]

/-- The state of the claim example: the request supplies cookie1=value1 in
its own Cookie header, and the client-lifetime jar contributes a stale
cookie1 for the same URL. -/
def c5state : HttpOptionsState :=
  { options := { url := some "http://mytesturlforcookies",
                 headers := some [("cookie", "cookie1=value1")] }
    addlCookies := [{ key := "cookie1", value := "stale" }] }

/-- The options jar parsed from the Cookie header of the claim example. -/
def c5own : List Cookie := [{ key := "cookie1", value := "value1" }]

/-- The state of the claim example after its options jar is memoized. -/
def c5jarState : HttpOptionsState := { c5state with optionsJar := some c5own }

/-- C5 witness: merging jar entry cookie1=stale into a request carrying
cookie1=value1 keeps the request value: the outgoing header holds exactly
cookie1=value1. -/
theorem c5_cookie_merge_witness :
    (¬ c5state.addlCookies.isEmpty) ∧
      ((c5state.addlCookies.map Cookie.key).Nodup) ∧
      (getCookieJar c5state = some (c5own, c5jarState)) ∧
      ((toRequestConfig c5state).map (fun p => p.2.optionsJar) =
        some (some (mergedJar c5own c5state.addlCookies))) ∧
      ((toRequestConfig c5state).map (fun p => p.1.headers) =
        some (some [("cookie", "cookie1=value1")])) :=
  ⟨by decide, by decide, by rfl,
    (c5_cookie_merge c5state c5own c5jarState (by decide) (by decide) (by rfl)).1,
    by decide⟩

end CSC
